import Mathlib

/-!
# gi: the interactive driver loop and the Lua execution harness

A shallow embedding of `cmd/gi/luajit.go` (`LuajitMain`) and of
`pkg/compiler/luaUtil.go` (`LuaDoFiles`, `FetchPreludeFilenames`,
`NewLuaVmWithPrelude`, `LuaRunAndReport`).

Conventions of the embedding.

* A Go string is modelled by its sequence of runes, `List Char` (input is taken to be
  valid UTF-8).  All byte indexing in the source (`low[0]`, `low[1]`, `low[:2]`,
  `low[1:]`, `low[3:]`) happens behind a test that the bytes involved are ASCII, where
  byte positions and rune positions coincide.
* Output written to standard output, timing and `reader.Reset` are not part of the
  state; the lines read are an input of the model.
* Machine integers: `strconv.Atoi` is that of a 64-bit platform.
* The collaborators whose code lives outside the two files (the analyzer
  `front.TopLevelParseGoSource`, the translator, the Lua VM, the file system,
  the environment variable `HOME`, the Unicode case tables) are fields of `Env`.
-/

namespace Gi

/-- Go string, as a sequence of runes. -/
abbrev Str := List Char

/-! ## Library functions used by the driver

The Go standard library is an external dependency; the definitions below follow its
documented behaviour. -/

/-- Go `unicode.IsSpace`: the Unicode White_Space property. -/
def isSpace (c : Char) : Bool :=
  let n := c.toNat
  n == 0x09 || n == 0x0A || n == 0x0B || n == 0x0C || n == 0x0D || n == 0x20 ||
  n == 0x85 || n == 0xA0 || n == 0x1680 || (0x2000 ≤ n && n ≤ 0x200A) ||
  n == 0x2028 || n == 0x2029 || n == 0x202F || n == 0x205F || n == 0x3000

/-- Go `bytes.TrimSpace` / `strings.TrimSpace`: leading and trailing white space removed. -/
def TrimSpace (s : Str) : Str :=
  ((s.dropWhile isSpace).reverse.dropWhile isSpace).reverse

/-- Go `unicode.ToLower`: ASCII is handled inline, every other rune through the case
tables `tbl` of the `unicode` package. -/
def toLowerRune (tbl : Char → Char) (c : Char) : Char :=
  if c.toNat ≤ 0x7F then
    if 0x41 ≤ c.toNat ∧ c.toNat ≤ 0x5A then Char.ofNat (c.toNat + 32) else c
  else tbl c

/-- Go `bytes.ToLower`: every rune mapped to lower case. -/
def ToLower (tbl : Char → Char) (s : Str) : Str :=
  s.map (toLowerRune tbl)

/-- Go `strings.HasPrefix`. -/
def HasPrefix (s pre : Str) : Bool :=
  pre.isPrefixOf s

/-- Go `strings.Split(s, ",")`: the pieces between commas, at least one piece. -/
def SplitComma : Str → List Str
  | [] => [[]]
  | c :: cs =>
    if c = ',' then [] :: SplitComma cs
    else
      match SplitComma cs with
      | [] => [[c]]
      | piece :: rest => (c :: piece) :: rest

/-- Go `strings.Replace(s, old, new, 1)` for a non-empty `old`: the first occurrence
of `old` is replaced. -/
def ReplaceFirst (old new : Str) : Str → Str
  | [] => []
  | c :: cs =>
    if old.isPrefixOf (c :: cs) then new ++ (c :: cs).drop old.length
    else c :: ReplaceFirst old new cs

/-- Value of a decimal digit, if the rune is one. -/
def digitVal (c : Char) : Option Nat :=
  if 0x30 ≤ c.toNat ∧ c.toNat ≤ 0x39 then some (c.toNat - 0x30) else none

/-- Reads a run of decimal digits, most significant first, onto the accumulator. -/
def parseDigits : Nat → Str → Option Nat
  | acc, [] => some acc
  | acc, c :: cs =>
    match digitVal c with
    | none => none
    | some d => parseDigits (acc * 10 + d) cs

/-- Go `strconv.Atoi` on a 64-bit platform: an optional sign followed by one or more
decimal digits; `none` stands for a non-nil error (syntax or range). -/
def Atoi (s : Str) : Option Int :=
  let neg : Bool := s.head? == some '-'
  let body : Str := if s.head? == some '-' || s.head? == some '+' then s.drop 1 else s
  if body.isEmpty then none
  else
    match parseDigits 0 body with
    | none => none
    | some n =>
      let v : Int := if neg then -(n : Int) else (n : Int)
      if -(2 : Int) ^ 63 ≤ v ∧ v ≤ (2 : Int) ^ 63 - 1 then some v else none


/-! ## The Lua VM, through its narrow contract

The VM is a value stack together with the record of the operations performed on it
(which stands for its internal state).  `LoadString` pushes exactly one value, the
compiled chunk on success and an error value on failure; `Call(0,0)` pops the chunk
and pushes one error value only when it fails. -/

/-- Values on the VM stack. -/
inductive LuaValue where
  | chunk (src : Str)
  | errorValue (msg : Str)
  | other (tag : Nat)
  deriving DecidableEq

/-- Operations that change the VM. -/
inductive VmOp where
  | loadString (s : Str) (interr : Nat)
  | call (err : Option Str)
  | pop (n : Nat)
  deriving DecidableEq

/-- State of `*luajit.State`: the value stack (top first) and the operations so far. -/
structure Vm where
  stack : List LuaValue
  ops : List VmOp
  deriving DecidableEq

/-- Errors returned by the functions of `luaUtil.go`. -/
inductive Err where
  | getwd (msg : Str)
  | noPreludeDir (preludePath : Str)
  | globProblem (preludePath : Str) (msg : Str)
  | noLuaFiles (preludePath : Str)
  | loadStringFailed (f : Str)
  | callFailed (f : Str) (msg : Str)
  deriving DecidableEq

/-- The collaborators of the two source files. -/
structure Env where
  /-- `os.Getenv("HOME")` -/
  home : Str
  /-- case tables of `unicode.ToLower` for runes above ASCII -/
  unicodeLower : Char → Char
  /-- `front.TopLevelParseGoSource`: `(eof, syntaxErr, empty)` -/
  TopLevelParseGoSource : Str → Bool × Bool × Bool
  /-- `translateAndCatchPanic(inc, src)`, given the fragments translated before -/
  translateAndCatchPanic : List Str → Str → Except Str Str
  /-- error message when `vm.LoadString(s)` fails in the given VM state -/
  loadError : Vm → Str → Option Str
  /-- error returned by `vm.Call(0,0)` for the chunk `src` in the given VM state -/
  callError : Vm → Str → Option Str
  /-- `os.Getwd()` -/
  getwd : Except Str Str
  /-- `DirExists` -/
  DirExists : Str → Bool
  /-- `filepath.Glob` -/
  Glob : Str → Except Str (List Str)

/-- Go `vm.LoadString(s)`: returns 0 and pushes the chunk, or returns 1 and pushes
the error. -/
def LoadString (env : Env) (vm : Vm) (s : Str) : Vm × Nat :=
  match env.loadError vm s with
  | none => (⟨LuaValue.chunk s :: vm.stack, vm.ops ++ [VmOp.loadString s 0]⟩, 0)
  | some msg => (⟨LuaValue.errorValue msg :: vm.stack, vm.ops ++ [VmOp.loadString s 1]⟩, 1)

/-- Source text of the value on top of the stack, when it is a chunk. -/
def topChunk (vm : Vm) : Str :=
  match vm.stack with
  | LuaValue.chunk src :: _ => src
  | _ => []

/-- Go `vm.Call(0, 0)`: pops the function on top of the stack and runs it; on failure
the error value is pushed and the error returned. -/
def Call (env : Env) (vm : Vm) : Vm × Option Str :=
  match env.callError vm (topChunk vm) with
  | none => (⟨vm.stack.drop 1, vm.ops ++ [VmOp.call none]⟩, none)
  | some msg =>
    (⟨LuaValue.errorValue msg :: vm.stack.drop 1, vm.ops ++ [VmOp.call (some msg)]⟩, some msg)

/-- Go `vm.Pop(n)`. -/
def Pop (vm : Vm) (n : Nat) : Vm :=
  ⟨vm.stack.drop n, vm.ops ++ [VmOp.pop n]⟩

/-! ## pkg/compiler/luaUtil.go -/

/-- Configuration of the VM, `VmConfig`. -/
structure VmConfig where
  PreludePath : Str
  Quiet : Bool
  deriving DecidableEq

/-- Go `NewVmConfig`. -/
def NewVmConfig : VmConfig := ⟨[], false⟩

/-- Result of a Go function that returns `error`, or panics. -/
inductive Ret (α : Type) where
  | ret (a : α)
  | panic (msg : Str)
  deriving DecidableEq

/-- The Lua text `dofile("f")` built by `fmt.Sprintf`. -/
def dofileText (f : Str) : Str :=
  "dofile(\"".toList ++ f ++ "\")".toList

/-- The file name `LuaDoFiles` refuses. -/
def luaHelpLua : Str := "lua.help.lua".toList

/-- Go `LuaDoFiles(vm, files)`: the VM afterwards, and the returned error (`none` is
`nil`) or the panic. -/
def LuaDoFiles (env : Env) (vm : Vm) : List Str → Vm × Ret (Option Err)
  | [] => (vm, Ret.ret none)
  | f :: files =>
    if f = luaHelpLua then (vm, Ret.panic "where lua.help.lua?".toList)
    else
      let r := LoadString env vm (dofileText f)
      if r.2 ≠ 0 then
        (Pop r.1 1, Ret.ret (some (Err.loadStringFailed f)))
      else
        let c := Call env r.1
        match c.2 with
        | some msg => (Pop c.1 1, Ret.ret (some (Err.callFailed f msg)))
        | none => LuaDoFiles env c.1 files

/-- The pattern suffix of `fmt.Sprintf("%s/*.lua", preludePath)`. -/
def luaGlobSuffix : Str := "/*.lua".toList

/-- The path and the quiet flag `NewLuaVmWithPrelude` works with: those of `cfg`, or
`"."` and `false` when `cfg` is nil (lines 26-29). -/
def effectiveCfg (cfg : Option VmConfig) : VmConfig :=
  match cfg with
  | none => { NewVmConfig with PreludePath := ".".toList }
  | some c => c

/-- Go `FetchPreludeFilenames(preludePath, quiet)`: the file list (`none` is the nil
slice) and the error (`none` is `nil`).  With `quiet` false the directory and the base
names are printed, which leaves the result alone. -/
def FetchPreludeFilenames (env : Env) (preludePath : Str) (quiet : Bool) :
    Option (List Str) × Option Err :=
  match env.getwd with
  | Except.error msg => (none, some (Err.getwd msg))
  | Except.ok _ =>
    if !env.DirExists preludePath then (none, some (Err.noPreludeDir preludePath))
    else
      match env.Glob (preludePath ++ luaGlobSuffix) with
      | Except.error msg => (none, some (Err.globProblem preludePath msg))
      | Except.ok files =>
        if files.length < 1 then (none, some (Err.noLuaFiles preludePath))
        else if !quiet then (some files, none)
        else (some files, none)

/-- The VM made by `luar.Init()`. -/
def luarInit : Vm := ⟨[], []⟩

/-- What `NewLuaVmWithPrelude` returns, with the VM it created (returned or not). -/
structure NewVmResult where
  vm : Option Vm
  err : Option Err
  created : Vm
  deriving DecidableEq

/-- Go `NewLuaVmWithPrelude(cfg)`; `cfg = none` is the nil pointer. -/
def NewLuaVmWithPrelude (env : Env) (cfg : Option VmConfig) : Ret NewVmResult :=
  let vm := luarInit
  let cfg := effectiveCfg cfg
  match FetchPreludeFilenames env cfg.PreludePath cfg.Quiet with
  | (_, some err) => Ret.ret ⟨none, some err, vm⟩
  | (files, none) =>
    match LuaDoFiles env vm (files.getD []) with
    | (vm1, Ret.ret err) => Ret.ret ⟨some vm1, err, vm1⟩
    | (_, Ret.panic msg) => Ret.panic msg

/-- How `LuaRunAndReport` went. -/
inductive RunOutcome where
  | loadFailed
  | callFailed
  | success
  deriving DecidableEq

/-- Go `LuaRunAndReport(vm, s)`: the VM afterwards and the branch taken. -/
def LuaRunAndReport (env : Env) (vm : Vm) (s : Str) : Vm × RunOutcome :=
  let r := LoadString env vm s
  if r.2 ≠ 0 then
    (Pop r.1 1, RunOutcome.loadFailed)
  else
    let c := Call env r.1
    match c.2 with
    | some _ => (Pop c.1 1, RunOutcome.callFailed)
    | none => (c.1, RunOutcome.success)

/-! ## fmt.Fprintf with a format and no operands

`LuajitMain` writes the history file with `fmt.Fprintf(histFile, src)`: the fragment is
the format string and the operand list is empty.  The definitions follow `doPrintf` of
package `fmt`, as in current Go releases, for an empty operand list (no argument is
ever available, so every verb other than `%%` is reported in the output). -/

/-- Flag characters of a verb: `#`, `0`, `+`, `-` and space. -/
def isFlag (c : Char) : Bool :=
  c == '#' || c == '0' || c == '+' || c == '-' || c == ' '

/-- fmt `parsenum`: decimal number at the front of the text; `(num, isnum, rest)`.  A
number beyond a million gives up and consumes the whole text. -/
def parsenum : Nat → Bool → Str → Nat × Bool × Str
  | num, isnum, [] => (num, isnum, [])
  | num, isnum, c :: cs =>
    match digitVal c with
    | none => (num, isnum, c :: cs)
    | some d => if num > 1000000 then (0, false, []) else parsenum (num * 10 + d) true cs

/-- fmt `parseArgNumber` on text that begins with `[`: whether a well-formed `[n]` was
read, and the text after what was consumed. -/
def parseArgNumber (rest : Str) : Bool × Str :=
  if rest.length < 3 then (false, rest.drop 1)
  else
    let inner := (rest.drop 1).takeWhile (fun c => c != ']')
    let after := (rest.drop 1).dropWhile (fun c => c != ']')
    match after with
    | [] => (false, rest.drop 1)
    | _ :: tail =>
      let r := parsenum 0 false inner
      (r.2.1 && r.2.2.isEmpty, tail)

/-- State of `doPrintf` while it reads one verb: the text written for it so far, the
format text not yet consumed, and the flags `afterIndex` and `p.goodArgNum`. -/
structure VerbScan where
  out : Str
  rest : Str
  afterIndex : Bool
  goodArgNum : Bool
  deriving DecidableEq

/-- fmt `argNumber` with no operands: an index can never be in range, so reading one
always clears `goodArgNum`; `afterIndex` tells whether a well-formed index was read. -/
def argNumber (v : VerbScan) : VerbScan :=
  match v.rest with
  | '[' :: _ =>
    let r := parseArgNumber v.rest
    { v with rest := r.2, afterIndex := r.1, goodArgNum := false }
  | _ => { v with afterIndex := false }

/-- The width of a verb: `*` finds no operand and writes `%!(BADWIDTH)`; otherwise a
number is read, which spoils an index just before it. -/
def scanWidth (v : VerbScan) : VerbScan :=
  match v.rest with
  | '*' :: r => { v with out := v.out ++ "%!(BADWIDTH)".toList, rest := r, afterIndex := false }
  | _ =>
    let n := parsenum 0 false v.rest
    { v with rest := n.2.2,
             goodArgNum := if v.afterIndex && n.2.1 then false else v.goodArgNum }

/-- The precision of a verb, after a `.`: `*` finds no operand and writes
`%!(BADPREC)`; otherwise a number is read. -/
def scanPrecision (v : VerbScan) : VerbScan :=
  match v.rest with
  | '.' :: r =>
    let v1 := argNumber
      { v with rest := r, goodArgNum := if v.afterIndex then false else v.goodArgNum }
    match v1.rest with
    | '*' :: r2 => { v1 with out := v1.out ++ "%!(BADPREC)".toList, rest := r2 }
    | _ => { v1 with rest := (parsenum 0 false v1.rest).2.2 }
  | _ => v

/-- One verb of `doPrintf`, from the rune after `%`: the text written, and the rest of
the format (`none` when the loop ends at `%!(NOVERB)`). -/
def doVerb (afterPercent : Str) : Str × Option Str :=
  let v0 : VerbScan := ⟨[], afterPercent.dropWhile isFlag, false, true⟩
  let v3 := scanPrecision (scanWidth (argNumber v0))
  let v4 := if !v3.afterIndex then argNumber v3 else v3
  match v4.rest with
  | [] => (v4.out ++ "%!(NOVERB)".toList, none)
  | verb :: rest =>
    if verb = '%' then (v4.out ++ ['%'], some rest)
    else if !v4.goodArgNum then
      (v4.out ++ "%!".toList ++ [verb] ++ "(BADINDEX)".toList, some rest)
    else (v4.out ++ "%!".toList ++ [verb] ++ "(MISSING)".toList, some rest)

/-- The format loop of `doPrintf`: literal text is copied up to the next `%`, then one
verb is processed. -/
def doPrintf : Nat → Str → Str
  | 0, _ => []
  | fuel + 1, format =>
    let lit := format.takeWhile (fun c => c != '%')
    match format.dropWhile (fun c => c != '%') with
    | [] => lit
    | _ :: afterPercent =>
      match doVerb afterPercent with
      | (out, none) => lit ++ out
      | (out, some rest) => lit ++ out ++ doPrintf fuel rest

/-- Bytes written by `fmt.Fprintf(w, format)`.  Each turn of the loop consumes at
least the `%`, so the length of the format is enough fuel. -/
def Fprintf (format : Str) : Str :=
  doPrintf (format.length + 1) format

/-! ## cmd/gi/luajit.go: the loop of `LuajitMain` -/

/-- Variables of `LuajitMain` that live across iterations, with the parts of `cfg`,
`inc` and `verb` the loop touches.  `analyzed` and `translated` record the texts given
to the analyzer and to the translator. -/
structure Session where
  RawLua : Bool
  PreludePath : Str
  Quiet : Bool
  prompt : Str
  prevSrc : Str
  history : List Str
  /-- bytes appended to the history file; `none` when `histFile` is nil -/
  histFile : Option Str
  PrintAST : Bool
  Verbose : Bool
  VerboseVerbose : Bool
  vm : Vm
  analyzed : List Str
  translated : List Str
  deriving DecidableEq

/-- How an iteration of the loop ends: `continue`/fall off the end of the body,
`return`, or a panic. -/
inductive Flow where
  | next
  | exit
  | panic (msg : Str)
  deriving DecidableEq

/-- Prompt of source-language mode. -/
def goPrompt : Str := "gi> ".toList

/-- Prompt while a fragment is pending. -/
def goMorePrompt : Str := ">>>    ".toList

/-- Prompt of raw mode. -/
def luaPrompt : Str := "raw luajit gi> ".toList

/-- Lines 252-280: record the fragment, then load and call `use`.  The diagnostics
print `use[:len(use)-1]`, which panics on an empty `use`. -/
def execute (env : Env) (s : Session) (src use : Str) : Flow × Session :=
  let s1 : Session :=
    { s with history := s.history ++ [src],
             histFile := s.histFile.map (fun written => written ++ Fprintf src) }
  let r := LoadString env s1.vm use
  if r.2 ≠ 0 then
    if use.isEmpty then (Flow.panic "slice bounds out of range".toList, { s1 with vm := r.1 })
    else (Flow.next, { s1 with vm := Pop r.1 1 })
  else
    let c := Call env r.1
    match c.2 with
    | some _ =>
      if use.isEmpty then (Flow.panic "slice bounds out of range".toList, { s1 with vm := c.1 })
      else (Flow.next, { s1 with vm := Pop c.1 1 })
    | none => (Flow.next, { s1 with vm := c.1 })

/-- Lines 214-250, label `notColonCmd`: `src` is the fragment, `use` the typed line. -/
def notColonCmd (env : Env) (s : Session) (src use : Str) : Flow × Session :=
  let isContinuation : Bool := s.prevSrc.length > 0
  if !s.RawLua then
    let src1 : Str := if isContinuation then s.prevSrc ++ ['\n'] ++ src else src
    let r := env.TopLevelParseGoSource src1
    let s1 : Session := { s with analyzed := s.analyzed ++ [src1] }
    if r.2.2 then (Flow.next, { s1 with prevSrc := [] })
    else if r.1 && !r.2.1 then (Flow.next, { s1 with prompt := goMorePrompt, prevSrc := src1 })
    else
      let translation : Str :=
        match env.translateAndCatchPanic s1.translated src1 with
        | Except.error _ => ['\n']
        | Except.ok t => t
      let s2 : Session :=
        { s1 with prevSrc := [], prompt := goPrompt, translated := s1.translated ++ [src1] }
      execute env s2 src1 translation
  else
    execute env s src (use ++ ['\n'])

/-- What lines 79-98 decide. -/
inductive ColonCmd where
  /-- the `continue` after a bad history request -/
  | badRequest
  /-- `goto notColonCmd` -/
  | label
  /-- on to the `switch`, with this `src` -/
  | onward (src : Str)
  /-- index out of range at `history[num-1]` -/
  | indexPanic
  deriving DecidableEq

/-- Lines 79-98: the doubled colon and the history request. -/
def colonCmd (history : List Str) (use low : Str) : ColonCmd :=
  if low.length > 1 && low[0]? == some ':' then
    if low.take 2 == "::".toList then ColonCmd.label
    else if (low[1]?.bind digitVal).isSome then
      match Atoi (low.drop 1) with
      | none => ColonCmd.badRequest
      | some num =>
        if num < 1 || num > (history.length : Int) then ColonCmd.badRequest
        else
          match history[(num - 1).toNat]? with
          | some h => ColonCmd.onward h
          | none => ColonCmd.indexPanic
    else ColonCmd.onward use
  else ColonCmd.onward use

/-- Lines 148-160: `:prelude` / `:reload`. -/
def reloadPrelude (env : Env) (s : Session) : Flow × Session :=
  match FetchPreludeFilenames env s.PreludePath s.Quiet with
  | (_, some _) => (Flow.next, s)
  | (files, none) =>
    match LuaDoFiles env s.vm (files.getD []) with
    | (vm1, Ret.ret _) => (Flow.next, { s with vm := vm1 })
    | (vm1, Ret.panic msg) => (Flow.panic msg, { s with vm := vm1 })

/-- Lines 99-185: the `switch low`; `none` when no case matches. -/
def switchLow (env : Env) (s : Session) (low : Str) : Option (Flow × Session) :=
  if low = ":ast".toList then some (Flow.next, { s with PrintAST := true })
  else if low = ":noast".toList then some (Flow.next, { s with PrintAST := false })
  else if low = ":q".toList then
    some (Flow.next, { s with Verbose := false, VerboseVerbose := false })
  else if low = ":v".toList then
    some (Flow.next, { s with Verbose := true, VerboseVerbose := false })
  else if low = ":vv".toList then
    some (Flow.next, { s with Verbose := true, VerboseVerbose := true })
  else if low = ":h".toList then some (Flow.next, s)
  else if low = ":raw".toList ∨ low = ":r".toList then
    some (Flow.next, { s with RawLua := true, prompt := luaPrompt })
  else if low = ":go".toList then
    some (Flow.next, { s with RawLua := false, prompt := goPrompt })
  else if low = ":prelude".toList ∨ low = ":reload".toList then some (reloadPrelude env s)
  else if low = ":help".toList ∨ low = ":?".toList then some (Flow.next, s)
  else none

/-- The prefix tested by `strings.HasPrefix(low, ":do")`. -/
def cmdDo : Str := ":do".toList

/-- Lines 188-201: the list `final` built from the text after `:do`. -/
def doFinal (env : Env) (low : Str) : List Str :=
  let files := TrimSpace (low.drop 3)
  let splt := SplitComma files
  (splt.map (fun piece =>
      let tmp := TrimSpace piece
      if env.home ≠ [] then ReplaceFirst "~/".toList (env.home ++ "/".toList) tmp else tmp)).filter
    (fun tmp => tmp.length > 0)

/-- Lines 187-212: the `:do` command. -/
def doCmd (env : Env) (s : Session) (low : Str) : Flow × Session :=
  let final := doFinal env low
  if final.length > 0 then
    match LuaDoFiles env s.vm final with
    | (vm1, Ret.ret _) => (Flow.next, { s with vm := vm1 })
    | (vm1, Ret.panic msg) => (Flow.panic msg, { s with vm := vm1 })
  else (Flow.next, s)

/-- Lines 75-280: the body of the loop once a line `by` has been read. -/
def processLine (env : Env) (s : Session) (line : Str) : Flow × Session :=
  let use := line
  let cmd := TrimSpace line
  let low := ToLower env.unicodeLower cmd
  match colonCmd s.history use low with
  | ColonCmd.badRequest => (Flow.next, s)
  | ColonCmd.indexPanic => (Flow.panic "index out of range".toList, s)
  | ColonCmd.label => notColonCmd env s use use
  | ColonCmd.onward src =>
    match switchLow env s low with
    | some r => r
    | none =>
      if HasPrefix low cmdDo then doCmd env s low
      else notColonCmd env s src use

/-- Error of `reader.ReadBytes`. -/
inductive ReadErr where
  | eof
  | other (msg : Str)
  deriving DecidableEq

/-- Lines 62-74 and the body: one iteration, given what `reader.ReadBytes` returned. -/
def iteration (env : Env) (s : Session) (line : Str) (err : Option ReadErr) :
    Flow × Session :=
  match err with
  | some ReadErr.eof =>
    if line.length > 0 then processLine env s line else (Flow.exit, s)
  | some (ReadErr.other msg) => (Flow.panic msg, s)
  | none => processLine env s line

/-- The loop of `LuajitMain` over the successive results of `reader.ReadBytes`; it stops
at the first `return` or panic (an exhausted input list stands for end of input). -/
def LuajitMain (env : Env) : Session → List (Str × Option ReadErr) → Flow × Session
  | s, [] => (Flow.exit, s)
  | s, (line, err) :: more =>
    match iteration env s line err with
    | (Flow.next, s1) => LuajitMain env s1 more
    | stop => stop

/-- The fragment with which a line arrives at the label `notColonCmd`, if it does:
`none` when lines 79-212 end the iteration (a rejected history request, a `switch`
case, `:do`). -/
def fragmentOf (env : Env) (s : Session) (line : Str) : Option Str :=
  let low := ToLower env.unicodeLower (TrimSpace line)
  match colonCmd s.history line low with
  | ColonCmd.label => some line
  | ColonCmd.onward src =>
    if (switchLow env s low).isSome || HasPrefix low cmdDo then none else some src
  | _ => none

/-- The text handed to the analyzer in source-language mode (lines 215-219). -/
def analyzerText (prevSrc src : Str) : Str :=
  if prevSrc = [] then src else prevSrc ++ ['\n'] ++ src

/-- The analyzer's answer `incomplete`: end of input reached, no syntax error, not empty. -/
def incomplete (r : Bool × Bool × Bool) : Prop :=
  r.1 = true ∧ r.2.1 = false ∧ r.2.2 = false

instance (r : Bool × Bool × Bool) : Decidable (incomplete r) := by
  unfold incomplete; infer_instance

/-- The analyzer's answer `complete`: neither empty nor incomplete. -/
def complete (r : Bool × Bool × Bool) : Prop :=
  r.2.2 = false ∧ ¬ (r.1 = true ∧ r.2.1 = false)

instance (r : Bool × Bool × Bool) : Decidable (complete r) := by
  unfold complete; infer_instance

/-- The texts given to `vm.LoadString`, in order. -/
def loadedTexts : List VmOp → List Str
  | [] => []
  | VmOp.loadString t _ :: ops => t :: loadedTexts ops
  | _ :: ops => loadedTexts ops

/-! ## A concrete environment, used to run the definitions -/

/-- A stand-in analyzer: empty on white space only, incomplete while more `{` than `}`
have been seen. -/
def braceAnalyzer (text : Str) : Bool × Bool × Bool :=
  (decide (text.count '}' < text.count '{'), false, text.all isSpace)

/-- A stand-in environment: `HOME=/home/u`, a translator that returns its input, a VM
that rejects text starting with a colon, a prelude directory `prelude` with two files. -/
def demoEnv : Env where
  home := "/home/u".toList
  unicodeLower := id
  TopLevelParseGoSource := braceAnalyzer
  translateAndCatchPanic := fun _ src => Except.ok src
  loadError := fun _ s => if s.head? = some ':' then some "unexpected symbol".toList else none
  callError := fun _ _ => none
  getwd := Except.ok "/work".toList
  DirExists := fun d => decide (d = "prelude".toList)
  Glob := fun pat =>
    if pat = "prelude/*.lua".toList then
      Except.ok ["prelude/a.lua".toList, "prelude/b.lua".toList]
    else Except.ok []

/-- A session in source-language mode with two history records and an open history
file. -/
def demoSession : Session where
  RawLua := false
  PreludePath := "prelude".toList
  Quiet := true
  prompt := goPrompt
  prevSrc := []
  history := ["a := 1\n".toList, "print(1)\n".toList]
  histFile := some []
  PrintAST := false
  Verbose := false
  VerboseVerbose := false
  vm := luarInit
  analyzed := []
  translated := []

/-! ## The execution harness -/

theorem LoadString_ok {env : Env} {vm : Vm} {s : Str} (h : env.loadError vm s = none) :
    LoadString env vm s = (⟨LuaValue.chunk s :: vm.stack, vm.ops ++ [VmOp.loadString s 0]⟩, 0) := by
  simp [LoadString, h]

theorem LoadString_fail {env : Env} {vm : Vm} {s msg : Str}
    (h : env.loadError vm s = some msg) :
    LoadString env vm s =
      (⟨LuaValue.errorValue msg :: vm.stack, vm.ops ++ [VmOp.loadString s 1]⟩, 1) := by
  simp [LoadString, h]

theorem Call_ok {env : Env} {vm : Vm} (h : env.callError vm (topChunk vm) = none) :
    Call env vm = (⟨vm.stack.drop 1, vm.ops ++ [VmOp.call none]⟩, none) := by
  simp [Call, h]

theorem Call_fail {env : Env} {vm : Vm} {msg : Str}
    (h : env.callError vm (topChunk vm) = some msg) :
    Call env vm =
      (⟨LuaValue.errorValue msg :: vm.stack.drop 1, vm.ops ++ [VmOp.call (some msg)]⟩,
        some msg) := by
  simp [Call, h]

/-- The three ways `LuaRunAndReport` can go, with the VM each one leaves. -/
theorem LuaRunAndReport_cases (env : Env) (vm : Vm) (s : Str) :
    (LuaRunAndReport env vm s =
        (⟨vm.stack, vm.ops ++ [VmOp.loadString s 1, VmOp.pop 1]⟩, RunOutcome.loadFailed)) ∨
    (∃ msg, LuaRunAndReport env vm s =
        (⟨vm.stack, vm.ops ++ [VmOp.loadString s 0, VmOp.call (some msg), VmOp.pop 1]⟩,
          RunOutcome.callFailed)) ∨
    (LuaRunAndReport env vm s =
        (⟨vm.stack, vm.ops ++ [VmOp.loadString s 0, VmOp.call none]⟩, RunOutcome.success)) := by
  cases hl : env.loadError vm s with
  | some msg =>
    left
    simp [LuaRunAndReport, LoadString_fail hl, Pop]
  | none =>
    right
    cases hc : env.callError ⟨LuaValue.chunk s :: vm.stack, vm.ops ++ [VmOp.loadString s 0]⟩
        (topChunk ⟨LuaValue.chunk s :: vm.stack, vm.ops ++ [VmOp.loadString s 0]⟩) with
    | some msg =>
      left
      exact ⟨msg, by simp [LuaRunAndReport, LoadString_ok hl, Call_fail hc, Pop]⟩
    | none =>
      right
      simp [LuaRunAndReport, LoadString_ok hl, Call_ok hc]

theorem LuaDoFiles_stack (env : Env) (files : List Str) :
    ∀ vm : Vm, (LuaDoFiles env vm files).1.stack = vm.stack := by
  induction files with
  | nil => intro vm; rfl
  | cons f files ih =>
    intro vm
    by_cases hf : f = luaHelpLua
    · simp [LuaDoFiles, hf]
    · cases hl : env.loadError vm (dofileText f) with
      | some msg => simp [LuaDoFiles, hf, LoadString_fail hl, Pop]
      | none =>
        cases hc : env.callError
            ⟨LuaValue.chunk (dofileText f) :: vm.stack,
              vm.ops ++ [VmOp.loadString (dofileText f) 0]⟩
            (topChunk ⟨LuaValue.chunk (dofileText f) :: vm.stack,
              vm.ops ++ [VmOp.loadString (dofileText f) 0]⟩) with
        | some msg => simp [LuaDoFiles, hf, LoadString_ok hl, Call_fail hc, Pop]
        | none => simp [LuaDoFiles, hf, LoadString_ok hl, Call_ok hc, ih]

/-- When `LuaDoFiles` returns an error, the last thing it did to the VM was `Pop(1)`. -/
theorem LuaDoFiles_error_pops (env : Env) (files : List Str) :
    ∀ (vm : Vm) (e : Err), (LuaDoFiles env vm files).2 = Ret.ret (some e) →
      (LuaDoFiles env vm files).1.ops.getLast? = some (VmOp.pop 1) := by
  induction files with
  | nil => intro vm e h; simp [LuaDoFiles] at h
  | cons f files ih =>
    intro vm e h
    by_cases hf : f = luaHelpLua
    · simp [LuaDoFiles, hf] at h
    · cases hl : env.loadError vm (dofileText f) with
      | some msg => simp [LuaDoFiles, hf, LoadString_fail hl, Pop]
      | none =>
        cases hc : env.callError
            ⟨LuaValue.chunk (dofileText f) :: vm.stack,
              vm.ops ++ [VmOp.loadString (dofileText f) 0]⟩
            (topChunk ⟨LuaValue.chunk (dofileText f) :: vm.stack,
              vm.ops ++ [VmOp.loadString (dofileText f) 0]⟩) with
        | some msg => simp [LuaDoFiles, hf, LoadString_ok hl, Call_fail hc, Pop]
        | none =>
          simp only [LuaDoFiles, hf, LoadString_ok hl, Call_ok hc, if_false, ne_eq,
            not_true_eq_false] at h ⊢
          exact ih _ e h

/-- C7: the harness leaves the VM value stack as it found it.  For every VM and every
text, `LuaRunAndReport` ends in one of three ways: the load failed, and the VM saw
exactly `LoadString` followed by `Pop(1)` (no `Call`); the call failed, and the VM saw
`LoadString`, `Call`, `Pop(1)`; or both succeeded, with `LoadString` and `Call` only.
In all three the stack is the initial stack (so its depth is unchanged).  `LuaDoFiles`
likewise leaves the stack as it was for every file list, whether it returns nil, an
error or panics, and an error return is preceded by exactly one `Pop(1)`. -/
theorem harness_leaves_stack_clean (env : Env) (vm : Vm) :
    (∀ s : Str,
      (LuaRunAndReport env vm s).1.stack = vm.stack ∧
      (LuaRunAndReport env vm s).1.stack.length = vm.stack.length ∧
      ((LuaRunAndReport env vm s =
          (⟨vm.stack, vm.ops ++ [VmOp.loadString s 1, VmOp.pop 1]⟩, RunOutcome.loadFailed)) ∨
       (∃ msg, LuaRunAndReport env vm s =
          (⟨vm.stack, vm.ops ++ [VmOp.loadString s 0, VmOp.call (some msg), VmOp.pop 1]⟩,
            RunOutcome.callFailed)) ∨
       (LuaRunAndReport env vm s =
          (⟨vm.stack, vm.ops ++ [VmOp.loadString s 0, VmOp.call none]⟩,
            RunOutcome.success)))) ∧
    (∀ files : List Str,
      (LuaDoFiles env vm files).1.stack = vm.stack ∧
      (LuaDoFiles env vm files).1.stack.length = vm.stack.length ∧
      (∀ e, (LuaDoFiles env vm files).2 = Ret.ret (some e) →
        (LuaDoFiles env vm files).1.ops.getLast? = some (VmOp.pop 1))) := by
  refine ⟨fun s => ?_, fun files => ?_⟩
  · have hc := LuaRunAndReport_cases env vm s
    have hs : (LuaRunAndReport env vm s).1.stack = vm.stack := by
      rcases hc with h | ⟨msg, h⟩ | h <;> rw [h]
    exact ⟨hs, by rw [hs], hc⟩
  · have hs := LuaDoFiles_stack env files vm
    exact ⟨hs, by rw [hs], LuaDoFiles_error_pops env files vm⟩

/-- C7 on a concrete run: a text the stand-in VM rejects, on a stack of two values. -/
theorem harness_leaves_stack_clean_witness :
    (LuaRunAndReport demoEnv ⟨[LuaValue.other 1, LuaValue.other 2], []⟩ ":x".toList).1.stack
        = [LuaValue.other 1, LuaValue.other 2] ∧
    (LuaDoFiles demoEnv ⟨[LuaValue.other 1, LuaValue.other 2], []⟩
        [":a".toList, "b".toList]).1.stack = [LuaValue.other 1, LuaValue.other 2] :=
  ⟨((harness_leaves_stack_clean demoEnv ⟨[LuaValue.other 1, LuaValue.other 2], []⟩).1
      ":x".toList).1,
   ((harness_leaves_stack_clean demoEnv ⟨[LuaValue.other 1, LuaValue.other 2], []⟩).2
      [":a".toList, "b".toList]).1⟩

/-! ## Locating the prelude -/

theorem FetchPreludeFilenames_quiet (env : Env) (preludePath : Str) :
    FetchPreludeFilenames env preludePath true = FetchPreludeFilenames env preludePath false := by
  unfold FetchPreludeFilenames
  cases env.getwd with
  | error msg => rfl
  | ok cwd =>
    cases env.DirExists preludePath with
    | false => rfl
    | true =>
      cases env.Glob (preludePath ++ luaGlobSuffix) with
      | error msg => rfl
      | ok files => by_cases h : files.length < 1 <;> simp [h]

theorem FetchPreludeFilenames_missing (env : Env) (preludePath : Str) (quiet : Bool)
    (h : env.DirExists preludePath = false ∨
      env.Glob (preludePath ++ luaGlobSuffix) = Except.ok []) :
    (FetchPreludeFilenames env preludePath quiet).1 = none ∧
    (FetchPreludeFilenames env preludePath quiet).2.isSome = true := by
  unfold FetchPreludeFilenames
  cases env.getwd with
  | error msg => simp
  | ok cwd =>
    cases hd : env.DirExists preludePath with
    | false => simp
    | true =>
      rcases h with h | h
      · rw [hd] at h; cases h
      · simp [h]

theorem FetchPreludeFilenames_found (env : Env) (preludePath : Str) (quiet : Bool)
    (cwd : Str) (files : List Str) (hwd : env.getwd = Except.ok cwd)
    (hd : env.DirExists preludePath = true)
    (hg : env.Glob (preludePath ++ luaGlobSuffix) = Except.ok files) (hne : files ≠ []) :
    FetchPreludeFilenames env preludePath quiet = (some files, none) := by
  have hlen : ¬ files.length < 1 := by
    cases files with
    | nil => exact absurd rfl hne
    | cons a t => simp
  unfold FetchPreludeFilenames
  simp [hwd, hd, hg, hlen]

theorem NewLuaVmWithPrelude_fetch_error (env : Env) (cfg : Option VmConfig) (e : Err)
    (h : (FetchPreludeFilenames env (effectiveCfg cfg).PreludePath
      (effectiveCfg cfg).Quiet).2 = some e) :
    NewLuaVmWithPrelude env cfg = Ret.ret ⟨none, some e, luarInit⟩ := by
  unfold NewLuaVmWithPrelude
  dsimp only
  generalize FetchPreludeFilenames env (effectiveCfg cfg).PreludePath
    (effectiveCfg cfg).Quiet = r at h
  obtain ⟨files, err⟩ := r
  simp only at h
  subst h
  rfl

/-- C6: `FetchPreludeFilenames` returns an error and a nil file list whenever the
prelude directory does not exist or the glob `preludePath/*.lua` matches nothing; when
the working directory is obtainable, the directory exists and the glob succeeds with at
least one match, it returns those matches, in that order, and no error; the result is
the same for `quiet` true and false.  `NewLuaVmWithPrelude` hands a fetch error on:
it returns a nil VM with that error, and the VM it had created has had nothing loaded
into it. -/
theorem prelude_fetch_contract (env : Env) (preludePath : Str) (quiet : Bool) :
    ((env.DirExists preludePath = false ∨
        env.Glob (preludePath ++ luaGlobSuffix) = Except.ok []) →
      (FetchPreludeFilenames env preludePath quiet).1 = none ∧
      (FetchPreludeFilenames env preludePath quiet).2.isSome = true) ∧
    (∀ (cwd : Str) (files : List Str), env.getwd = Except.ok cwd →
      env.DirExists preludePath = true →
      env.Glob (preludePath ++ luaGlobSuffix) = Except.ok files → files ≠ [] →
      FetchPreludeFilenames env preludePath quiet = (some files, none)) ∧
    FetchPreludeFilenames env preludePath true = FetchPreludeFilenames env preludePath false ∧
    (∀ (cfg : Option VmConfig) (e : Err),
      (FetchPreludeFilenames env (effectiveCfg cfg).PreludePath
        (effectiveCfg cfg).Quiet).2 = some e →
      NewLuaVmWithPrelude env cfg = Ret.ret ⟨none, some e, luarInit⟩ ∧ luarInit.ops = []) :=
  ⟨FetchPreludeFilenames_missing env preludePath quiet,
   fun cwd files hwd hd hg hne =>
     FetchPreludeFilenames_found env preludePath quiet cwd files hwd hd hg hne,
   FetchPreludeFilenames_quiet env preludePath,
   fun cfg e h => ⟨NewLuaVmWithPrelude_fetch_error env cfg e h, rfl⟩⟩

/-- C6 on the stand-in file system: the directory `nowhere` is missing, the
directory `prelude` holds two files, and a nil configuration (directory `.`) fails. -/
theorem prelude_fetch_contract_witness :
    ((FetchPreludeFilenames demoEnv "nowhere".toList false).1 = none ∧
      (FetchPreludeFilenames demoEnv "nowhere".toList false).2.isSome = true) ∧
    FetchPreludeFilenames demoEnv "prelude".toList true =
      (some ["prelude/a.lua".toList, "prelude/b.lua".toList], none) ∧
    (NewLuaVmWithPrelude demoEnv none =
        Ret.ret ⟨none, some (Err.noPreludeDir ".".toList), luarInit⟩ ∧ luarInit.ops = []) :=
  ⟨(prelude_fetch_contract demoEnv "nowhere".toList false).1 (Or.inl (by decide)),
   (prelude_fetch_contract demoEnv "prelude".toList true).2.1 "/work".toList
     ["prelude/a.lua".toList, "prelude/b.lua".toList] rfl rfl rfl (by decide),
   (prelude_fetch_contract demoEnv "prelude".toList true).2.2.2 none
     (Err.noPreludeDir ".".toList) (by decide)⟩

/-! ## The loop: dispatch -/

theorem toLowerRune_colon (tbl : Char → Char) : toLowerRune tbl ':' = ':' := by
  simp [toLowerRune]

theorem processLine_of_fragmentOf {env : Env} {s : Session} {line src : Str}
    (h : fragmentOf env s line = some src) :
    processLine env s line = notColonCmd env s src line := by
  unfold fragmentOf at h
  unfold processLine
  dsimp only at h ⊢
  cases hc : colonCmd s.history line (ToLower env.unicodeLower (TrimSpace line)) with
  | badRequest => rw [hc] at h; cases h
  | indexPanic => rw [hc] at h; cases h
  | label =>
    rw [hc] at h
    simp only [Option.some.injEq] at h
    subst h
    rfl
  | onward src1 =>
    rw [hc] at h
    simp only at h ⊢
    cases hsw : switchLow env s (ToLower env.unicodeLower (TrimSpace line)) with
    | some r => simp [hsw] at h
    | none =>
      cases hp : HasPrefix (ToLower env.unicodeLower (TrimSpace line)) cmdDo with
      | true => simp [hsw, hp] at h
      | false =>
        simp only [hsw, hp, Option.isSome_none, Bool.or_self, Bool.false_eq_true, if_false,
          Option.some.injEq] at h ⊢
        subst h
        rfl

/-- A line whose trimmed text starts with two colons goes to `notColonCmd` as typed. -/
theorem fragmentOf_double_colon (env : Env) (s : Session) (line : Str)
    (h : (TrimSpace line).take 2 = [':', ':']) : fragmentOf env s line = some line := by
  have hlow : ∃ rest, ToLower env.unicodeLower (TrimSpace line) = ':' :: ':' :: rest := by
    match hts : TrimSpace line, h with
    | a :: b :: rest, h =>
      simp only [List.take_succ_cons, List.take_zero, List.cons.injEq, and_true] at h
      obtain ⟨ha, hb⟩ := h
      subst ha hb
      exact ⟨rest.map (toLowerRune env.unicodeLower), by simp [ToLower, toLowerRune_colon]⟩
    | [], h => simp at h
    | [a], h => simp at h
  obtain ⟨rest, hlow⟩ := hlow
  unfold fragmentOf
  simp [hlow, colonCmd]

/-- A line whose trimmed, lower-cased text does not start with a colon goes to
`notColonCmd` as typed. -/
theorem fragmentOf_no_colon (env : Env) (s : Session) (line : Str)
    (h : (ToLower env.unicodeLower (TrimSpace line)).head? ≠ some ':') :
    fragmentOf env s line = some line := by
  unfold fragmentOf
  generalize ToLower env.unicodeLower (TrimSpace line) = low at h
  cases low with
  | nil => simp [colonCmd, switchLow, HasPrefix, cmdDo]
  | cons c t =>
    have hc : c ≠ ':' := by simpa using h
    simp [colonCmd, switchLow, HasPrefix, cmdDo, hc, Ne.symm hc]

/-! ## The loop: from `notColonCmd` on -/

/-- What `execute` leaves: the fragment appended to the history and written to the
history file, and some new VM state; nothing else changes. -/
theorem execute_session (env : Env) (s : Session) (src use : Str) :
    ∃ vm1, (execute env s src use).2 =
      { s with history := s.history ++ [src],
               histFile := s.histFile.map (fun written => written ++ Fprintf src),
               vm := vm1 } := by
  unfold execute
  dsimp only
  split
  · split <;> exact ⟨_, rfl⟩
  · split
    · split <;> exact ⟨_, rfl⟩
    · exact ⟨_, rfl⟩

/-- Source-language mode, written with `analyzerText`. -/
theorem notColonCmd_source {env : Env} {s : Session} {src use : Str}
    (hmode : s.RawLua = false) :
    notColonCmd env s src use =
      if (env.TopLevelParseGoSource (analyzerText s.prevSrc src)).2.2 then
        (Flow.next, { s with analyzed := s.analyzed ++ [analyzerText s.prevSrc src],
                             prevSrc := [] })
      else if (env.TopLevelParseGoSource (analyzerText s.prevSrc src)).1 &&
          !(env.TopLevelParseGoSource (analyzerText s.prevSrc src)).2.1 then
        (Flow.next, { s with analyzed := s.analyzed ++ [analyzerText s.prevSrc src],
                             prompt := goMorePrompt,
                             prevSrc := analyzerText s.prevSrc src })
      else
        execute env
          { s with analyzed := s.analyzed ++ [analyzerText s.prevSrc src],
                   prevSrc := [], prompt := goPrompt,
                   translated := s.translated ++ [analyzerText s.prevSrc src] }
          (analyzerText s.prevSrc src)
          (match env.translateAndCatchPanic s.translated (analyzerText s.prevSrc src) with
            | Except.error _ => ['\n']
            | Except.ok t => t) := by
  have htext : (if decide (s.prevSrc.length > 0) = true then s.prevSrc ++ ['\n'] ++ src else src)
      = analyzerText s.prevSrc src := by
    unfold analyzerText
    cases s.prevSrc <;> simp
  unfold notColonCmd
  simp only [hmode, Bool.not_false, if_true, htext]

/-- Source-language mode, analyzer says empty: the buffer is dropped. -/
theorem notColonCmd_empty {env : Env} {s : Session} {src use : Str}
    (hmode : s.RawLua = false)
    (hr : (env.TopLevelParseGoSource (analyzerText s.prevSrc src)).2.2 = true) :
    notColonCmd env s src use =
      (Flow.next, { s with analyzed := s.analyzed ++ [analyzerText s.prevSrc src],
                           prevSrc := [] }) := by
  rw [notColonCmd_source hmode]
  simp [hr]

/-- Source-language mode, analyzer says incomplete: the text becomes the buffer. -/
theorem notColonCmd_incomplete {env : Env} {s : Session} {src use : Str}
    (hmode : s.RawLua = false)
    (hr : incomplete (env.TopLevelParseGoSource (analyzerText s.prevSrc src))) :
    notColonCmd env s src use =
      (Flow.next, { s with analyzed := s.analyzed ++ [analyzerText s.prevSrc src],
                           prompt := goMorePrompt,
                           prevSrc := analyzerText s.prevSrc src }) := by
  obtain ⟨h1, h2, h3⟩ := hr
  rw [notColonCmd_source hmode]
  simp [h1, h2, h3]

/-- Source-language mode, any other answer: the text is translated and executed. -/
theorem notColonCmd_complete {env : Env} {s : Session} {src use : Str}
    (hmode : s.RawLua = false)
    (hr : complete (env.TopLevelParseGoSource (analyzerText s.prevSrc src))) :
    notColonCmd env s src use =
      execute env
        { s with analyzed := s.analyzed ++ [analyzerText s.prevSrc src],
                 prevSrc := [], prompt := goPrompt,
                 translated := s.translated ++ [analyzerText s.prevSrc src] }
        (analyzerText s.prevSrc src)
        (match env.translateAndCatchPanic s.translated (analyzerText s.prevSrc src) with
          | Except.error _ => ['\n']
          | Except.ok t => t) := by
  obtain ⟨h1, h2⟩ := hr
  rw [notColonCmd_source hmode]
  have h3 : ((env.TopLevelParseGoSource (analyzerText s.prevSrc src)).1 &&
      !(env.TopLevelParseGoSource (analyzerText s.prevSrc src)).2.1) = false := by
    cases ha : (env.TopLevelParseGoSource (analyzerText s.prevSrc src)).1 <;>
      cases hb : (env.TopLevelParseGoSource (analyzerText s.prevSrc src)).2.1 <;>
      simp_all
  simp [h1, h3]

/-- Raw mode: the typed line plus a newline is executed, `src` is recorded. -/
theorem notColonCmd_raw {env : Env} {s : Session} {src use : Str} (hmode : s.RawLua = true) :
    notColonCmd env s src use = execute env s src (use ++ ['\n']) := by
  unfold notColonCmd
  simp [hmode]

theorem complete_or (r : Bool × Bool × Bool) : r.2.2 = true ∨ incomplete r ∨ complete r := by
  obtain ⟨a, b, c⟩ := r
  cases a <;> cases b <;> cases c <;> simp [incomplete, complete]

theorem analyzerText_pending {p : Str} {src : Str} (h : p ≠ []) :
    analyzerText p src = p ++ ['\n'] ++ src := by
  simp [analyzerText, h]

theorem incomplete_not_complete {r : Bool × Bool × Bool} (h : incomplete r) : ¬ complete r := by
  obtain ⟨h1, h2, _⟩ := h
  intro hc
  exact hc.2 ⟨h1, h2⟩

/-- Source-language mode: the session after `notColonCmd`, field by field. -/
theorem notColonCmd_source_fields (env : Env) (s : Session) (src use : Str)
    (hmode : s.RawLua = false) :
    (notColonCmd env s src use).2.analyzed = s.analyzed ++ [analyzerText s.prevSrc src] ∧
    (notColonCmd env s src use).2.prevSrc =
      (if incomplete (env.TopLevelParseGoSource (analyzerText s.prevSrc src))
        then analyzerText s.prevSrc src else []) ∧
    (notColonCmd env s src use).2.translated =
      (if complete (env.TopLevelParseGoSource (analyzerText s.prevSrc src))
        then s.translated ++ [analyzerText s.prevSrc src] else s.translated) ∧
    (notColonCmd env s src use).2.history =
      (if complete (env.TopLevelParseGoSource (analyzerText s.prevSrc src))
        then s.history ++ [analyzerText s.prevSrc src] else s.history) := by
  rcases complete_or (env.TopLevelParseGoSource (analyzerText s.prevSrc src)) with h | h | h
  · have hi : ¬ incomplete (env.TopLevelParseGoSource (analyzerText s.prevSrc src)) := by
      intro hi; rw [hi.2.2] at h; cases h
    have hc : ¬ complete (env.TopLevelParseGoSource (analyzerText s.prevSrc src)) := by
      intro hc; rw [hc.1] at h; cases h
    rw [notColonCmd_empty hmode h]
    simp [hi, hc]
  · have hc := incomplete_not_complete h
    rw [notColonCmd_incomplete hmode h]
    simp [h, hc]
  · have hi : ¬ incomplete (env.TopLevelParseGoSource (analyzerText s.prevSrc src)) :=
      fun hi => incomplete_not_complete hi h
    rw [notColonCmd_complete hmode h]
    obtain ⟨vm1, hx⟩ := execute_session env
      { s with analyzed := s.analyzed ++ [analyzerText s.prevSrc src],
               prevSrc := [], prompt := goPrompt,
               translated := s.translated ++ [analyzerText s.prevSrc src] }
      (analyzerText s.prevSrc src)
      (match env.translateAndCatchPanic s.translated (analyzerText s.prevSrc src) with
        | Except.error _ => ['\n']
        | Except.ok t => t)
    rw [hx]
    simp [h, hi]

/-- The settings that only commands change are left alone from `notColonCmd` on. -/
theorem notColonCmd_settings (env : Env) (s : Session) (src use : Str) :
    (notColonCmd env s src use).2.RawLua = s.RawLua ∧
    (notColonCmd env s src use).2.PrintAST = s.PrintAST ∧
    (notColonCmd env s src use).2.Verbose = s.Verbose ∧
    (notColonCmd env s src use).2.VerboseVerbose = s.VerboseVerbose := by
  cases hmode : s.RawLua with
  | true =>
    rw [notColonCmd_raw hmode]
    obtain ⟨vm1, hx⟩ := execute_session env s src (use ++ ['\n'])
    rw [hx]
    simp [hmode]
  | false =>
    rcases complete_or (env.TopLevelParseGoSource (analyzerText s.prevSrc src)) with h | h | h
    · rw [notColonCmd_empty hmode h]
      simp [hmode]
    · rw [notColonCmd_incomplete hmode h]
      simp [hmode]
    · rw [notColonCmd_complete hmode h]
      obtain ⟨vm1, hx⟩ := execute_session env
        { s with analyzed := s.analyzed ++ [analyzerText s.prevSrc src],
                 prevSrc := [], prompt := goPrompt,
                 translated := s.translated ++ [analyzerText s.prevSrc src] }
        (analyzerText s.prevSrc src)
        (match env.translateAndCatchPanic s.translated (analyzerText s.prevSrc src) with
          | Except.error _ => ['\n']
          | Except.ok t => t)
      rw [hx]
      simp [hmode]

/-- C1: in source-language mode, a line `l` that is no command reaches the analyzer as
`l` when nothing is pending and as `p ++ "\n" ++ l` when `p` is pending.  If the
analyzer answers incomplete for that text, the iteration translates nothing, leaves the
VM, the history and the history file alone, and the pending buffer becomes that text;
the next ordinary line `l2` is then analyzed as that text, a newline and `l2`, and when
the analyzer finds this complete it is this joined text that is translated. -/
theorem incomplete_line_is_buffered (env : Env) (s : Session) (l text : Str)
    (hmode : s.RawLua = false) (hl : fragmentOf env s l = some l)
    (ht : text = if s.prevSrc = [] then l else s.prevSrc ++ ['\n'] ++ l) :
    (processLine env s l).2.analyzed = s.analyzed ++ [text] ∧
    (incomplete (env.TopLevelParseGoSource text) →
      (processLine env s l).1 = Flow.next ∧
      (processLine env s l).2.translated = s.translated ∧
      (processLine env s l).2.vm = s.vm ∧
      (processLine env s l).2.history = s.history ∧
      (processLine env s l).2.histFile = s.histFile ∧
      (processLine env s l).2.prevSrc = text ∧
      (∀ l2 : Str, l ≠ [] → fragmentOf env (processLine env s l).2 l2 = some l2 →
        (processLine env (processLine env s l).2 l2).2.analyzed =
          s.analyzed ++ [text, text ++ ['\n'] ++ l2] ∧
        (complete (env.TopLevelParseGoSource (text ++ ['\n'] ++ l2)) →
          (processLine env (processLine env s l).2 l2).2.translated =
            s.translated ++ [text ++ ['\n'] ++ l2]))) := by
  have hte : text = analyzerText s.prevSrc l := ht
  subst hte
  rw [processLine_of_fragmentOf hl]
  refine ⟨(notColonCmd_source_fields env s l l hmode).1, fun hinc => ?_⟩
  rw [notColonCmd_incomplete hmode hinc]
  refine ⟨rfl, rfl, rfl, rfl, rfl, rfl, fun l2 hne hl2 => ?_⟩
  rw [processLine_of_fragmentOf hl2]
  have hne2 : analyzerText s.prevSrc l ≠ [] := by
    unfold analyzerText
    by_cases hp : s.prevSrc = [] <;> simp [hp, hne]
  have hf := notColonCmd_source_fields env
    { s with analyzed := s.analyzed ++ [analyzerText s.prevSrc l],
             prompt := goMorePrompt, prevSrc := analyzerText s.prevSrc l } l2 l2 hmode
  have htext2 : analyzerText (analyzerText s.prevSrc l) l2 =
      analyzerText s.prevSrc l ++ ['\n'] ++ l2 := analyzerText_pending hne2
  dsimp only at hf hl2 ⊢
  simp only [htext2] at hf
  refine ⟨by rw [hf.1]; simp, fun hc => ?_⟩
  rw [hf.2.2.1, if_pos hc]

/-- C1 on a concrete line: `func f() \x7b` opens a block, so the stand-in analyzer
answers incomplete. -/
theorem incomplete_line_is_buffered_witness :
    (processLine demoEnv demoSession "func f() \x7b\n".toList).2.analyzed =
      [] ++ ["func f() \x7b\n".toList] ∧
    (processLine demoEnv demoSession "func f() \x7b\n".toList).2.prevSrc =
      "func f() \x7b\n".toList ∧
    (processLine demoEnv demoSession "func f() \x7b\n".toList).2.history =
      demoSession.history :=
  have h := incomplete_line_is_buffered demoEnv demoSession "func f() \x7b\n".toList
    "func f() \x7b\n".toList rfl (by decide) (by decide)
  ⟨h.1, (h.2 (by decide)).2.2.2.2.2.1, (h.2 (by decide)).2.2.2.1⟩

/-- C2: a line whose trimmed text begins with `::` is no command.  It reaches
`notColonCmd` with `src` and `use` both the typed line (no history record is put in its
place, no case of the `switch` and no `:do` runs), which is exactly what happens to a
line whose trimmed text has no leading colon; in raw mode the line goes to the VM, in
source-language mode to the analyzer; and `RawLua`, `PrintAST`, `Verbose` and
`VerboseVerbose`, which only commands set, keep their values. -/
theorem double_colon_is_source_text (env : Env) (s : Session) (line : Str)
    (h : (TrimSpace line).take 2 = [':', ':']) :
    fragmentOf env s line = some line ∧
    processLine env s line = notColonCmd env s line line ∧
    (∀ other : Str, (ToLower env.unicodeLower (TrimSpace other)).head? ≠ some ':' →
      processLine env s other = notColonCmd env s other other) ∧
    (s.RawLua = true → processLine env s line = execute env s line (line ++ ['\n'])) ∧
    (s.RawLua = false →
      (processLine env s line).2.analyzed = s.analyzed ++ [analyzerText s.prevSrc line]) ∧
    (processLine env s line).2.RawLua = s.RawLua ∧
    (processLine env s line).2.PrintAST = s.PrintAST ∧
    (processLine env s line).2.Verbose = s.Verbose ∧
    (processLine env s line).2.VerboseVerbose = s.VerboseVerbose := by
  have hf := fragmentOf_double_colon env s line h
  have hp := processLine_of_fragmentOf hf
  refine ⟨hf, hp, fun other ho => ?_, fun hraw => ?_, fun hsrc => ?_, ?_⟩
  · exact processLine_of_fragmentOf (fragmentOf_no_colon env s other ho)
  · rw [hp, notColonCmd_raw hraw]
  · rw [hp]
    exact (notColonCmd_source_fields env s line line hsrc).1
  · rw [hp]
    exact notColonCmd_settings env s line line

/-- C2 on a concrete line: the Lua label `::top::` typed in raw mode. -/
theorem double_colon_is_source_text_witness :
    processLine demoEnv { demoSession with RawLua := true } "::top::\n".toList =
      execute demoEnv { demoSession with RawLua := true } "::top::\n".toList
        ("::top::\n".toList ++ ['\n']) :=
  (double_colon_is_source_text demoEnv { demoSession with RawLua := true }
    "::top::\n".toList (by decide)).2.2.2.1 rfl

/-- A typed line reaches the analyzer with a non-empty text as soon as the line itself is
non-empty (which `reader.ReadBytes` guarantees for the lines the loop processes); a
replayed record does so when the record or the pending buffer is non-empty. -/
theorem analyzerText_ne_nil (p src : Str) (h : src ≠ [] ∨ p ≠ []) : analyzerText p src ≠ [] := by
  unfold analyzerText
  by_cases hp : p = []
  · rcases h with h | h
    · simpa [hp] using h
    · exact absurd hp h
  · simp [hp]

/-- C8: in source-language mode, for a line that reaches the analyzer, the pending
buffer after the iteration is the analyzed text when the analyzer answered incomplete
and the empty string after every other answer (empty, complete, syntax error), whatever
the translator and the VM do.  The analyzed text is non-empty as soon as the fragment
or the pending buffer is, and then the buffer is non-empty afterwards exactly when the
analyzer answered incomplete. -/
theorem pending_buffer_reset (env : Env) (s : Session) (line src text : Str)
    (hmode : s.RawLua = false) (hf : fragmentOf env s line = some src)
    (ht : text = if s.prevSrc = [] then src else s.prevSrc ++ ['\n'] ++ src) :
    (incomplete (env.TopLevelParseGoSource text) → (processLine env s line).2.prevSrc = text) ∧
    (¬ incomplete (env.TopLevelParseGoSource text) → (processLine env s line).2.prevSrc = []) ∧
    ((src ≠ [] ∨ s.prevSrc ≠ []) → text ≠ []) ∧
    (text ≠ [] →
      ((processLine env s line).2.prevSrc ≠ [] ↔ incomplete (env.TopLevelParseGoSource text))) := by
  have hte : text = analyzerText s.prevSrc src := ht
  subst hte
  rw [processLine_of_fragmentOf hf]
  have hp := (notColonCmd_source_fields env s src line hmode).2.1
  by_cases hi : incomplete (env.TopLevelParseGoSource (analyzerText s.prevSrc src))
  · rw [if_pos hi] at hp
    rw [hp]
    exact ⟨fun _ => rfl, fun hn => absurd hi hn, analyzerText_ne_nil s.prevSrc src,
      fun hne => ⟨fun _ => hi, fun _ => hne⟩⟩
  · rw [if_neg hi] at hp
    rw [hp]
    exact ⟨fun hx => absurd hx hi, fun _ => rfl, analyzerText_ne_nil s.prevSrc src,
      fun _ => ⟨fun hx => absurd rfl hx, fun hx => absurd hx hi⟩⟩

/-- C8 on concrete lines: the closing brace typed while `func f() \x7b` is pending
makes the stand-in analyzer answer complete, and the buffer is emptied; the opening
line itself, typed with nothing pending, is kept as the buffer. -/
theorem pending_buffer_reset_witness :
    (processLine demoEnv { demoSession with prevSrc := "func f() \x7b\n".toList }
      "\x7d\n".toList).2.prevSrc = [] ∧
    ((processLine demoEnv demoSession "func f() \x7b\n".toList).2.prevSrc ≠ [] ↔
      incomplete (demoEnv.TopLevelParseGoSource "func f() \x7b\n".toList)) :=
  ⟨(pending_buffer_reset demoEnv { demoSession with prevSrc := "func f() \x7b\n".toList }
      "\x7d\n".toList "\x7d\n".toList "func f() \x7b\n\n\x7d\n".toList rfl (by decide)
      (by decide)).2.1 (by decide),
   (pending_buffer_reset demoEnv demoSession "func f() \x7b\n".toList
      "func f() \x7b\n".toList "func f() \x7b\n".toList rfl (by decide) (by decide)).2.2.2
      (by decide)⟩

/-! ## History requests -/

theorem digit_ne {d : Char} (hd : (digitVal d).isSome = true) (c : Char)
    (hc : digitVal c = none) : d ≠ c := by
  intro h
  subst h
  rw [hc] at hd
  cases hd

/-- Lines 84-97 for a lower-cased line `:` followed by a digit. -/
theorem colonCmd_digit (history : List Str) (line : Str) (d : Char) (t : Str)
    (hd : (digitVal d).isSome = true) :
    colonCmd history line (':' :: d :: t) =
      match Atoi (d :: t) with
      | none => ColonCmd.badRequest
      | some num =>
        if num < 1 || num > (history.length : Int) then ColonCmd.badRequest
        else
          match history[(num - 1).toNat]? with
          | some h => ColonCmd.onward h
          | none => ColonCmd.indexPanic := by
  have h1 : d ≠ ':' := digit_ne hd ':' (by decide)
  unfold colonCmd
  simp [h1, hd]

/-- No case of the `switch` and no `:do` matches a colon followed by a digit. -/
theorem no_command_after_digit (env : Env) (s : Session) (d : Char) (t : Str)
    (hd : (digitVal d).isSome = true) :
    switchLow env s (':' :: d :: t) = none ∧ HasPrefix (':' :: d :: t) cmdDo = false := by
  have ha : d ≠ 'a' := digit_ne hd 'a' (by decide)
  have hn : d ≠ 'n' := digit_ne hd 'n' (by decide)
  have hq : d ≠ 'q' := digit_ne hd 'q' (by decide)
  have hv : d ≠ 'v' := digit_ne hd 'v' (by decide)
  have hh : d ≠ 'h' := digit_ne hd 'h' (by decide)
  have hr : d ≠ 'r' := digit_ne hd 'r' (by decide)
  have hg : d ≠ 'g' := digit_ne hd 'g' (by decide)
  have hp : d ≠ 'p' := digit_ne hd 'p' (by decide)
  have hm : d ≠ '?' := digit_ne hd '?' (by decide)
  have hdd : d ≠ 'd' := digit_ne hd 'd' (by decide)
  constructor
  · simp [switchLow, ha, hn, hq, hv, hh, hr, hg, hp, hm]
  · simp [HasPrefix, cmdDo, List.isPrefixOf, hdd, Ne.symm hdd]

/-- The things that can happen to a line whose trimmed, lower-cased text is `:`
followed by a digit: the request is accepted with the record `history[N-1]`, or the
iteration ends with the session unchanged; the index is never out of range. -/
theorem history_request_cases (env : Env) (s : Session) (line : Str) (d : Char) (t : Str)
    (hlow : ToLower env.unicodeLower (TrimSpace line) = ':' :: d :: t)
    (hd : (digitVal d).isSome = true) :
    ((∃ src, fragmentOf env s line = some src) ↔
      ∃ N : Int, Atoi (d :: t) = some N ∧ 1 ≤ N ∧ N ≤ (s.history.length : Int)) ∧
    (∀ N : Int, Atoi (d :: t) = some N → 1 ≤ N → N ≤ (s.history.length : Int) →
      ∃ src, s.history[(N - 1).toNat]? = some src ∧
        fragmentOf env s line = some src ∧
        processLine env s line = notColonCmd env s src line) ∧
    ((¬ ∃ N : Int, Atoi (d :: t) = some N ∧ 1 ≤ N ∧ N ≤ (s.history.length : Int)) →
      processLine env s line = (Flow.next, s)) ∧
    colonCmd s.history line (ToLower env.unicodeLower (TrimSpace line)) ≠
      ColonCmd.indexPanic := by
  have hcc := colonCmd_digit s.history line d t hd
  obtain ⟨hsw, hpre⟩ := no_command_after_digit env s d t hd
  have hfrag : fragmentOf env s line =
      match colonCmd s.history line (':' :: d :: t) with
      | ColonCmd.label => some line
      | ColonCmd.onward src => some src
      | _ => none := by
    unfold fragmentOf
    simp only [hlow, hsw, hpre]
    cases colonCmd s.history line (':' :: d :: t) <;> simp
  have hproc : ∀ r, colonCmd s.history line (':' :: d :: t) = r →
      r = ColonCmd.badRequest → processLine env s line = (Flow.next, s) := by
    intro r hr hb
    unfold processLine
    simp only [hlow, hr, hb]
  rw [hlow]
  cases hA : Atoi (d :: t) with
  | none =>
    rw [hA] at hcc
    simp only at hcc
    rw [hcc] at hfrag
    refine ⟨⟨fun ⟨src, h⟩ => ?_, fun ⟨N, h, _⟩ => (by cases h)⟩, fun N h => (by cases h),
      fun _ => hproc _ hcc rfl, (by rw [hcc]; simp)⟩
    rw [hfrag] at h
    cases h
  | some num =>
    rw [hA] at hcc
    simp only at hcc
    by_cases hrange : 1 ≤ num ∧ num ≤ (s.history.length : Int)
    · have hlt : (num - 1).toNat < s.history.length := by omega
      have hget : s.history[(num - 1).toNat]? = some (s.history[(num - 1).toNat]) :=
        List.getElem?_eq_getElem hlt
      have hcond : (decide (num < 1) || decide (num > (s.history.length : Int))) = false := by
        simp only [Bool.or_eq_false_iff, decide_eq_false_iff_not]
        omega
      rw [hcond, hget] at hcc
      simp only [Bool.false_eq_true, if_false] at hcc
      rw [hcc] at hfrag
      simp only at hfrag
      refine ⟨⟨fun _ => ⟨num, rfl, hrange.1, hrange.2⟩, fun _ => ⟨_, hfrag⟩⟩, ?_, ?_, ?_⟩
      · intro N hN _ _
        simp only [Option.some.injEq] at hN
        subst hN
        exact ⟨_, hget, hfrag, processLine_of_fragmentOf hfrag⟩
      · intro hno
        exact absurd ⟨num, rfl, hrange.1, hrange.2⟩ hno
      · rw [hcc]
        simp
    · have hcond : (decide (num < 1) || decide (num > (s.history.length : Int))) = true := by
        simp only [Bool.or_eq_true, decide_eq_true_eq]
        omega
      rw [hcond] at hcc
      simp only [if_true] at hcc
      rw [hcc] at hfrag
      simp only at hfrag
      refine ⟨⟨fun ⟨src, h⟩ => ?_, fun ⟨N, hN, h1, h2⟩ => ?_⟩, ?_, fun _ => hproc _ hcc rfl,
        (by rw [hcc]; simp)⟩
      · rw [hfrag] at h
        cases h
      · simp only [Option.some.injEq] at hN
        subst hN
        exact absurd ⟨h1, h2⟩ hrange
      · intro N hN h1 h2
        simp only [Option.some.injEq] at hN
        subst hN
        exact absurd ⟨h1, h2⟩ hrange

/-- C10: a history request is checked before the history is indexed.  For a line
whose trimmed, lower-cased text is `:` followed by a digit and further characters, the
request is accepted (the iteration goes on to `notColonCmd`) exactly when the text after
the colon is accepted by `strconv.Atoi` with a value `N` such that `1 ≤ N ≤ len(history)`;
it then goes on with the record `history[N-1]`.  In every other case the iteration ends
with the whole session unchanged (history, pending buffer, mode, prompt, VM, analyzer
and translator records).  The index `N-1` is never out of range. -/
theorem history_request_validated (env : Env) (s : Session) (line : Str) (d : Char) (t : Str)
    (hlow : ToLower env.unicodeLower (TrimSpace line) = ':' :: d :: t)
    (hd : (digitVal d).isSome = true) :
    ((∃ src, fragmentOf env s line = some src) ↔
      ∃ N : Int, Atoi (d :: t) = some N ∧ 1 ≤ N ∧ N ≤ (s.history.length : Int)) ∧
    (∀ N : Int, Atoi (d :: t) = some N → 1 ≤ N → N ≤ (s.history.length : Int) →
      ∃ src, s.history[(N - 1).toNat]? = some src ∧
        fragmentOf env s line = some src ∧
        processLine env s line = notColonCmd env s src line) ∧
    ((¬ ∃ N : Int, Atoi (d :: t) = some N ∧ 1 ≤ N ∧ N ≤ (s.history.length : Int)) →
      processLine env s line = (Flow.next, s)) ∧
    colonCmd s.history line (ToLower env.unicodeLower (TrimSpace line)) ≠
      ColonCmd.indexPanic :=
  history_request_cases env s line d t hlow hd

/-- C10 on concrete requests against a history of two records: `:2` is accepted and
goes on with the second record, `:3` and `:2x` end the iteration with nothing changed. -/
theorem history_request_validated_witness :
    (∃ src, demoSession.history[((2 : Int) - 1).toNat]? = some src ∧
      fragmentOf demoEnv demoSession ":2\n".toList = some src ∧
      processLine demoEnv demoSession ":2\n".toList =
        notColonCmd demoEnv demoSession src ":2\n".toList) ∧
    processLine demoEnv demoSession ":3\n".toList = (Flow.next, demoSession) ∧
    processLine demoEnv demoSession ":2x\n".toList = (Flow.next, demoSession) :=
  ⟨(history_request_validated demoEnv demoSession ":2\n".toList '2' [] (by decide)
      (by decide)).2.1 2 (by decide) (by decide) (by decide),
   (history_request_validated demoEnv demoSession ":3\n".toList '3' [] (by decide)
      (by decide)).2.2.1 (by
        rintro ⟨N, hN, _, h2⟩
        have h3 : N = 3 := by
          have : Atoi ['3'] = some 3 := by decide
          rw [this] at hN
          exact (Option.some.inj hN).symm
        subst h3
        exact absurd h2 (by decide)),
   (history_request_validated demoEnv demoSession ":2x\n".toList '2' ['x'] (by decide)
      (by decide)).2.2.1 (by
        rintro ⟨N, hN, _, _⟩
        have : Atoi ['2', 'x'] = none := by decide
        rw [this] at hN
        cases hN)⟩

/-- C3, amended: the record that a history request puts in place of the typed line,
and what the iteration does with it.  For a line whose trimmed, lower-cased text is `:`
followed by decimal text that `strconv.Atoi` reads as `N`, with `1 ≤ N ≤ len(history)`,
the fragment is the record `history[N-1]` (1-based).  In source-language mode the text
analyzed is that record, preceded by the pending buffer and a newline if one is pending,
and when the analyzer finds the text complete it is this text that is translated and
appended to the history.  In raw mode the fragment appended to the history is the
record. -/
theorem history_replay_record (env : Env) (s : Session) (line : Str) (d : Char) (t : Str)
    (N : Int) (record text : Str)
    (hlow : ToLower env.unicodeLower (TrimSpace line) = ':' :: d :: t)
    (hd : (digitVal d).isSome = true) (hN : Atoi (d :: t) = some N)
    (h1 : 1 ≤ N) (h2 : N ≤ (s.history.length : Int))
    (hrec : s.history[(N - 1).toNat]? = some record)
    (ht : text = if s.prevSrc = [] then record else s.prevSrc ++ ['\n'] ++ record) :
    fragmentOf env s line = some record ∧
    (s.RawLua = false →
      (processLine env s line).2.analyzed = s.analyzed ++ [text] ∧
      (complete (env.TopLevelParseGoSource text) →
        (processLine env s line).2.translated = s.translated ++ [text] ∧
        (processLine env s line).2.history = s.history ++ [text])) ∧
    (s.RawLua = true → (processLine env s line).2.history = s.history ++ [record]) := by
  obtain ⟨src, hsrc, hfrag, hproc⟩ :=
    (history_request_cases env s line d t hlow hd).2.1 N hN h1 h2
  rw [hrec] at hsrc
  simp only [Option.some.injEq] at hsrc
  subst hsrc
  have hte : text = analyzerText s.prevSrc record := ht
  subst hte
  refine ⟨hfrag, fun hmode => ?_, fun hmode => ?_⟩
  · rw [hproc]
    have hf := notColonCmd_source_fields env s record line hmode
    refine ⟨hf.1, fun hc => ?_⟩
    rw [hf.2.2.1, hf.2.2.2]
    simp only [if_pos hc, and_self]
  · rw [hproc, notColonCmd_raw hmode]
    obtain ⟨vm1, hx⟩ := execute_session env s record (line ++ ['\n'])
    rw [hx]

/-- C3, amended, on a concrete request: `:2` in source-language mode with nothing
pending replays the second record. -/
theorem history_replay_record_witness :
    fragmentOf demoEnv demoSession ":2\n".toList = some "print(1)\n".toList ∧
    (processLine demoEnv demoSession ":2\n".toList).2.translated = [] ++ ["print(1)\n".toList] ∧
    (processLine demoEnv demoSession ":2\n".toList).2.history =
      demoSession.history ++ ["print(1)\n".toList] :=
  have h := history_replay_record demoEnv demoSession ":2\n".toList '2' [] 2
    "print(1)\n".toList "print(1)\n".toList (by decide) (by decide) (by decide) (by decide)
    (by decide) (by decide) (by decide)
  ⟨h.1, ((h.2.1 rfl).2 (by decide)).1, ((h.2.1 rfl).2 (by decide)).2⟩

/-- C3 fails on two requests.  In raw mode, `:2` against a history whose second record
is `print(1)` loads the typed line followed by two newlines into the VM, not the record
followed by a newline.  In source-language mode with `func f() \x7b` pending, `:1`
against a history whose first record is `\x7d` appends the joined text to the history,
not the record. -/
theorem history_replay_counterexample :
    (loadedTexts (processLine demoEnv { demoSession with RawLua := true }
        ":2\n".toList).2.vm.ops = [":2\n\n".toList] ∧
      "print(1)\n".toList ++ ['\n'] ∉
        loadedTexts (processLine demoEnv { demoSession with RawLua := true }
          ":2\n".toList).2.vm.ops) ∧
    ((processLine demoEnv
        { demoSession with prevSrc := "func f() \x7b\n".toList, history := ["\x7d\n".toList] }
        ":1\n".toList).2.history = ["\x7d\n".toList, "func f() \x7b\n\n\x7d\n".toList] ∧
      (processLine demoEnv
        { demoSession with prevSrc := "func f() \x7b\n".toList, history := ["\x7d\n".toList] }
        ":1\n".toList).2.history ≠ ["\x7d\n".toList] ++ ["\x7d\n".toList]) := by
  decide

/-! ## The history file -/

theorem dropWhile_length (p : Char → Bool) (l : Str) : (l.dropWhile p).length ≤ l.length :=
  (List.dropWhile_sublist p).length_le

theorem parsenum_length (l : Str) :
    ∀ (n : Nat) (b : Bool), (parsenum n b l).2.2.length ≤ l.length := by
  induction l with
  | nil => intro n b; simp [parsenum]
  | cons c cs ih =>
    intro n b
    unfold parsenum
    cases digitVal c with
    | none => simp
    | some d =>
      by_cases h : n > 1000000
      · simp [h]
      · simp only [h, if_false]
        exact Nat.le_succ_of_le (ih _ _)

theorem parseArgNumber_length (rest : Str) : (parseArgNumber rest).2.length ≤ rest.length := by
  unfold parseArgNumber
  split
  · simp
  · dsimp only
    split
    · simp
    · rename_i x tail heq
      have h1 := dropWhile_length (fun c => c != ']') (rest.drop 1)
      rw [heq] at h1
      simp only [List.length_cons, List.length_drop] at h1
      dsimp only
      omega

theorem argNumber_length (v : VerbScan) : (argNumber v).rest.length ≤ v.rest.length := by
  unfold argNumber
  split
  · exact parseArgNumber_length _
  · exact Nat.le_refl _

theorem scanWidth_length (v : VerbScan) : (scanWidth v).rest.length ≤ v.rest.length := by
  unfold scanWidth
  split
  · rename_i r heq
    rw [heq]
    simp
  · exact parsenum_length _ _ _

theorem scanPrecision_length (v : VerbScan) : (scanPrecision v).rest.length ≤ v.rest.length := by
  unfold scanPrecision
  split
  · rename_i r heq
    rw [heq]
    have h1 := argNumber_length
      { v with rest := r, goodArgNum := if v.afterIndex then false else v.goodArgNum }
    dsimp only at h1 ⊢
    split
    · rename_i r2 heq2
      rw [heq2] at h1
      simp only [List.length_cons] at h1 ⊢
      omega
    · have h2 := parsenum_length (argNumber
        { v with rest := r, goodArgNum := if v.afterIndex then false else v.goodArgNum }).rest
        0 false
      simp only [List.length_cons]
      omega
  · exact Nat.le_refl _

/-- A verb consumes at least one rune after the `%`, unless the format ends with it. -/
theorem doVerb_length (a out rest : Str) (h : doVerb a = (out, some rest)) :
    rest.length < a.length := by
  have h0 := dropWhile_length isFlag a
  have h1 := argNumber_length ⟨[], a.dropWhile isFlag, false, true⟩
  have h2 := scanWidth_length (argNumber ⟨[], a.dropWhile isFlag, false, true⟩)
  have h3 := scanPrecision_length (scanWidth (argNumber ⟨[], a.dropWhile isFlag, false, true⟩))
  have h4 := argNumber_length
    (scanPrecision (scanWidth (argNumber ⟨[], a.dropWhile isFlag, false, true⟩)))
  unfold doVerb at h
  dsimp only at h h1 h2 h3 h4
  generalize scanPrecision (scanWidth (argNumber ⟨[], a.dropWhile isFlag, false, true⟩)) = v3
    at h h3 h4
  have h5 : (if (!v3.afterIndex) = true then argNumber v3 else v3).rest.length ≤
      v3.rest.length := by
    split
    · exact h4
    · exact Nat.le_refl _
  generalize (if (!v3.afterIndex) = true then argNumber v3 else v3) = v4 at h h5
  have hlen : ∀ verb tail, v4.rest = verb :: tail → tail.length < a.length := by
    intro verb tail hv
    rw [hv] at h5
    simp only [List.length_cons] at h5
    omega
  split at h
  · simp at h
  · rename_i verb tail hv
    have hr : rest = tail := by
      split at h
      · simp only [Prod.mk.injEq, Option.some.injEq] at h
        exact h.2.symm
      · split at h <;>
        · simp only [Prod.mk.injEq, Option.some.injEq] at h
          exact h.2.symm
    rw [hr]
    exact hlen verb tail hv

/-- More fuel than the length of the format changes nothing: `Fprintf` is the result of
the format loop run to its end. -/
theorem doPrintf_fuel : ∀ (fuel : Nat) (format : Str), format.length < fuel →
    doPrintf fuel format = Fprintf format := by
  intro fuel
  induction fuel using Nat.strong_induction_on with
  | _ fuel ih =>
    intro format hlen
    cases fuel with
    | zero => omega
    | succ n =>
      unfold Fprintf
      have hd := dropWhile_length (fun c => c != '%') format
      unfold doPrintf
      dsimp only
      split
      · rfl
      · rename_i x afterPercent heq
        rw [heq] at hd
        simp only [List.length_cons] at hd
        split
        · rfl
        · rename_i out rest hv
          have hr := doVerb_length afterPercent out rest hv
          have e1 := ih n (Nat.lt_succ_self n) rest (by omega)
          by_cases hcase : format.length = n
          · rw [hcase]
          · have e2 := ih format.length (by omega) rest (by omega)
            rw [e1, e2]

theorem takeWhile_no_percent (src : Str) (h : '%' ∉ src) :
    src.takeWhile (fun c => c != '%') = src ∧ src.dropWhile (fun c => c != '%') = [] := by
  induction src with
  | nil => simp
  | cons c cs ih =>
    have hc : c ≠ '%' := fun hc => h (by simp [hc])
    have hcs : '%' ∉ cs := fun hcs => h (by simp [hcs])
    have hb : (c != '%') = true := by simpa using hc
    simp only [List.takeWhile, List.dropWhile, hb]
    exact ⟨by rw [(ih hcs).1], (ih hcs).2⟩

/-- A fragment without a percent sign is written to the history file as it is. -/
theorem Fprintf_no_percent (src : Str) (h : '%' ∉ src) : Fprintf src = src := by
  obtain ⟨h1, h2⟩ := takeWhile_no_percent src h
  unfold Fprintf doPrintf
  simp only [h1, h2]

/-- C4 at a fragment with a percent sign: `x := 7 % 2` reaches the execution step and
is appended to the in-memory history as it is, while the bytes appended to the history
file are `x := 7 %!`, a newline and `(MISSING)`; the same happens in raw mode. -/
theorem history_file_percent :
    (processLine demoEnv demoSession "x := 7 % 2\n".toList).2.history =
      demoSession.history ++ ["x := 7 % 2\n".toList] ∧
    (processLine demoEnv demoSession "x := 7 % 2\n".toList).2.histFile =
      some "x := 7 %!\n(MISSING)".toList ∧
    (processLine demoEnv { demoSession with RawLua := true } "x = 7 % 2\n".toList).2.histFile =
      some "x = 7 %!\n(MISSING)".toList ∧
    Fprintf "x := 7 % 2\n".toList ≠ "x := 7 % 2\n".toList := by
  decide

/-! ## The `:do` command -/

/-- C5 at a path with capital letters: `:do Prelude/Init.lua, ~/b.lua` gives
`LuaDoFiles` the lower-cased path `prelude/init.lua` (and `/home/u/b.lua`), and the
text loaded into the VM is `dofile("prelude/init.lua")`. -/
theorem do_paths_lower_cased :
    doFinal demoEnv (ToLower demoEnv.unicodeLower
        (TrimSpace ":do Prelude/Init.lua, ~/b.lua\n".toList)) =
      ["prelude/init.lua".toList, "/home/u/b.lua".toList] ∧
    loadedTexts (processLine demoEnv demoSession
        ":do Prelude/Init.lua, ~/b.lua\n".toList).2.vm.ops =
      [dofileText "prelude/init.lua".toList, dofileText "/home/u/b.lua".toList] ∧
    dofileText "Prelude/Init.lua".toList ∉
      loadedTexts (processLine demoEnv demoSession
        ":do Prelude/Init.lua, ~/b.lua\n".toList).2.vm.ops := by
  decide

end Gi
